import Mathlib

/-!
Shallow embedding of the SSE Faculty Review application (streamlit_app.py).

The database is modelled as in-memory lists of `faculty` and `rating` rows;
SQL aggregate queries become list computations over those rows; SQLite floats
become exact rationals; `datetime.now().isoformat(timespec := "minutes")`
becomes an explicitly passed clock value (seconds since an epoch) truncated to
whole minutes; Python `round` (half-to-even) becomes `rne` below.  The UI
submit handlers that guard the store calls are modelled as functions from the
old database state to the new one.
-/

namespace FacultyReview

/-- Python-style round-half-to-even of a rational to an integer.  Models
Python's builtin `round` on the exactly representable values produced here
(integer halves), and SQLite/Python float rounding on the values at stake. -/
def rne (q : ℚ) : ℤ :=
  let n : ℤ := q.num / (q.den : ℤ)
  let r : ℚ := q - (n : ℚ)
  if r < 1 / 2 then n
  else if 1 / 2 < r then n + 1
  else if n % 2 = 0 then n else n + 1

/-- Rounding to one decimal place, modelling Python `round(x, 1)`. -/
def round1 (q : ℚ) : ℚ := (rne (q * 10) : ℚ) / 10

/-- Row of the `faculty` table (`id` is the AUTOINCREMENT primary key,
`name TEXT NOT NULL`, `department TEXT` nullable). -/
structure Faculty where
  id : Nat
  name : String
  department : Option String
deriving DecidableEq, Repr

/-- Row of the `rating` table, with the full column set of the current
revision's CREATE TABLE.  `created_at` is stored at minute precision
(`isoformat(timespec := "minutes")`), modelled as minutes since an epoch so
that the `ORDER BY datetime(created_at)` comparison is numeric comparison. -/
structure Rating where
  id : Nat
  faculty_id : Nat
  leniency : Int
  internal_marks : Int
  correction : Int
  teaching : Int
  internal_from : Int
  internal_to : Int
  comment : Option String
  created_at : Nat
  user_email : Option String
  reg_no : Option String
deriving DecidableEq, Repr

/-- The two tables of the store. -/
structure DB where
  faculty : List Faculty
  rating : List Rating
deriving DecidableEq, Repr

/-- Fresh database. -/
def emptyDB : DB := ⟨[], []⟩

/-- Rows of `rating` with the given `faculty_id` (the WHERE / JOIN condition),
in table order. -/
def ratingsFor (db : DB) (fid : Nat) : List Rating :=
  db.rating.filter (fun r => decide (r.faculty_id = fid))

/-- Model of `add_faculty`: INSERT INTO faculty (name, department).  The store
itself performs no name validation; an empty department string is stored as
NULL (`department if department else None`). -/
def add_faculty (db : DB) (name department : String) : DB :=
  { db with
    faculty := db.faculty ++
      [{ id := db.faculty.length + 1
         name := name
         department := if department = "" then none else some department }] }

/-- Model of `add_rating`: the legacy `internal_marks` column is populated
with `int(round((internal_from + internal_to) / 2.0))` and `created_at` with
the current time truncated to whole minutes.  The store performs no range
validation. -/
def add_rating (db : DB) (faculty_id : Nat)
    (leniency correction teaching internal_from internal_to : Int)
    (comment : String) (user_email reg_no : Option String) (now : Nat) : DB :=
  { db with
    rating := db.rating ++
      [{ id := db.rating.length + 1
         faculty_id := faculty_id
         leniency := leniency
         internal_marks := rne (((internal_from + internal_to : ℤ) : ℚ) / 2)
         correction := correction
         teaching := teaching
         internal_from := internal_from
         internal_to := internal_to
         comment := if comment = "" then none else some comment
         created_at := now / 60
         user_email := user_email
         reg_no := reg_no }] }

/-- SQL `AVG` over a column: NULL (`none`) on an empty set of rows, otherwise
the exact arithmetic mean. -/
def avgOpt (xs : List ℚ) : Option ℚ :=
  if xs.isEmpty then none else some (xs.sum / (xs.length : ℚ))

/-- The SQL expression `(internal_from + internal_to) / 2.0` of one rating. -/
def midpoint (r : Rating) : ℚ :=
  ((r.internal_from : ℚ) + (r.internal_to : ℚ)) / 2

/-- One row of the `get_all_faculty_with_avg` result set after the Python
post-processing `round(row[i] or 0, 1)` (NULL averages become `0.0`). -/
structure AvgRow where
  id : Nat
  name : String
  department : Option String
  avg_leniency : ℚ
  avg_internal : ℚ
  avg_correction : ℚ
  avg_teaching : ℚ
  rating_count : Nat
deriving DecidableEq, Repr

/-- The aggregate row the LEFT JOIN / GROUP BY produces for one faculty row,
combined with the Python dict construction (`round(x or 0, 1)`). -/
def facultyAvgRow (db : DB) (f : Faculty) : AvgRow :=
  let rs := ratingsFor db f.id
  { id := f.id
    name := f.name
    department := f.department
    avg_leniency := round1 ((avgOpt (rs.map fun r => (r.leniency : ℚ))).getD 0)
    avg_internal := round1 ((avgOpt (rs.map midpoint)).getD 0)
    avg_correction := round1 ((avgOpt (rs.map fun r => (r.correction : ℚ))).getD 0)
    avg_teaching := round1 ((avgOpt (rs.map fun r => (r.teaching : ℚ))).getD 0)
    rating_count := rs.length }

/-- The `ORDER BY f.name ASC` comparison (SQLite BINARY collation on UTF-8
text coincides with code-point order, hence with `String.le` here). -/
def byNameLE (a b : Faculty) : Prop := a.name ≤ b.name

instance : DecidableRel byNameLE := fun a b => String.decidableLE a.name b.name

instance : IsTotal Faculty byNameLE := ⟨fun a b => le_total a.name b.name⟩

instance : IsTrans Faculty byNameLE := ⟨fun _ _ _ h h' => le_trans h h'⟩

/-- Model of `get_all_faculty_with_avg`: one aggregate row per faculty row
(GROUP BY the primary key), ordered ascending by name. -/
def get_all_faculty_with_avg (db : DB) : List AvgRow :=
  (db.faculty.insertionSort byNameLE).map (facultyAvgRow db)

/-- Model of `get_faculty_by_id` (SELECT ... WHERE id = ? / fetchone). -/
def get_faculty_by_id (db : DB) (fid : Nat) : Option Faculty :=
  db.faculty.find? (fun f => decide (f.id = fid))

/-- One entry of the `get_ratings_for_faculty` result: the selected columns,
with `internal_range` rendered as in the Python f-string. -/
structure RatingView where
  leniency : Int
  correction : Int
  teaching : Int
  internal_range : String
  comment : Option String
  created_at : Nat
  reg_no : Option String
deriving DecidableEq, Repr

/-- Projection of one rating row to the dict built by
`get_ratings_for_faculty`. -/
def ratingView (r : Rating) : RatingView :=
  { leniency := r.leniency
    correction := r.correction
    teaching := r.teaching
    internal_range := toString r.internal_from ++ " – " ++ toString r.internal_to
    comment := r.comment
    created_at := r.created_at
    reg_no := r.reg_no }

/-- The `ORDER BY datetime(created_at) DESC` comparison. -/
def createdDesc (a b : Rating) : Prop := b.created_at ≤ a.created_at

instance : DecidableRel createdDesc := fun a b => Nat.decLe b.created_at a.created_at

instance : IsTotal Rating createdDesc := ⟨fun a b => Nat.le_total b.created_at a.created_at⟩

instance : IsTrans Rating createdDesc := ⟨fun _ _ _ h h' => le_trans h' h⟩

/-- The rating rows of one faculty ordered by `created_at` descending (the
SQL query before the dict projection).  A sort is used to model ORDER BY; the
choice of algorithm is immaterial, only sortedness and permutation are relied
upon. -/
def ratingsQuery (db : DB) (fid : Nat) : List Rating :=
  (ratingsFor db fid).insertionSort createdDesc

/-- Model of `get_ratings_for_faculty`. -/
def get_ratings_for_faculty (db : DB) (fid : Nat) : List RatingView :=
  (ratingsQuery db fid).map ratingView

/-- What SQL itself guarantees about the result of the
`ORDER BY datetime(created_at) DESC` query: some permutation of the matching
rows that is non-strictly sorted by `created_at` descending.  The relative
order of rows with equal keys is not specified. -/
def ratingsResultSpec (db : DB) (fid : Nat) (out : List Rating) : Prop :=
  out.Perm (ratingsFor db fid) ∧ out.Pairwise createdDesc

/-- The aggregate record returned by `get_avg_for_faculty` after the Python
post-processing. -/
structure AvgStats where
  avg_leniency : ℚ
  avg_internal : ℚ
  avg_correction : ℚ
  avg_teaching : ℚ
  rating_count : Nat
deriving DecidableEq, Repr

/-- Model of `get_avg_for_faculty`.  The aggregate SELECT always yields one
row, so the Python `if not row` branch is dead; NULL averages are turned into
`0` by `row[i] or 0` and `COUNT` is never NULL. -/
def get_avg_for_faculty (db : DB) (fid : Nat) : AvgStats :=
  let rs := ratingsFor db fid
  { avg_leniency := round1 ((avgOpt (rs.map fun r => (r.leniency : ℚ))).getD 0)
    avg_internal := round1 ((avgOpt (rs.map midpoint)).getD 0)
    avg_correction := round1 ((avgOpt (rs.map fun r => (r.correction : ℚ))).getD 0)
    avg_teaching := round1 ((avgOpt (rs.map fun r => (r.teaching : ℚ))).getD 0)
    rating_count := rs.length }

/-- All-averages-zero, zero-count record. -/
def zeroAvgStats : AvgStats :=
  { avg_leniency := 0, avg_internal := 0, avg_correction := 0
    avg_teaching := 0, rating_count := 0 }

/-- Referential integrity of the data model: every rating points at an
existing faculty row (the schema's FOREIGN KEY declaration; within the
application all ratings are created from ids drawn from a faculty listing). -/
def refIntegrity (db : DB) : Prop :=
  ∀ r ∈ db.rating, ∃ f ∈ db.faculty, f.id = r.faculty_id

end FacultyReview

namespace FacultyReview

/-! Email validation (`valid_college_email`), embedded as a matcher for the
Python regular expression `^[0-9]{9}\.simats@saveetha\.com$` under `re.match`
semantics: `[0-9]` are the ASCII digits, and without `re.MULTILINE` the `$`
anchor matches at the end of the string or just before a newline that ends
the string. -/

/-- The fixed literal part of the pattern. -/
def emailSuffix : List Char := ".simats@saveetha.com".data

/-- Consume exactly `n` ASCII digits (`[0-9]{n}`). -/
def matchDigits : Nat → List Char → Option (List Char)
  | 0, cs => some cs
  | _ + 1, [] => none
  | n + 1, c :: cs => if c.isDigit then matchDigits n cs else none

/-- Consume an exact literal. -/
def matchLit : List Char → List Char → Option (List Char)
  | [], cs => some cs
  | _ :: _, [] => none
  | l :: ls, c :: cs => if c = l then matchLit ls cs else none

/-- Python `$` anchor (no MULTILINE): succeeds at the end of the input or
just before a single final newline. -/
def matchEnd : List Char → Bool
  | [] => true
  | [c] => decide (c = '\n')
  | _ :: _ :: _ => false

/-- Model of `valid_college_email`. -/
def valid_college_email (email : String) : Bool :=
  match matchDigits 9 email.data with
  | none => false
  | some rest =>
    match matchLit emailSuffix rest with
    | none => false
    | some rest2 => matchEnd rest2

/-- The form the specification describes: exactly nine decimal digits
followed by the fixed suffix, nothing else. -/
def exactNineDigitForm (s : String) : Prop :=
  ∃ ds : List Char, ds.length = 9 ∧ (∀ c ∈ ds, c.isDigit = true) ∧
    s.data = ds ++ emailSuffix

/-- The same form followed by one trailing newline. -/
def nineDigitNewlineForm (s : String) : Prop :=
  ∃ ds : List Char, ds.length = 9 ∧ (∀ c ∈ ds, c.isDigit = true) ∧
    s.data = ds ++ emailSuffix ++ ['\n']

/-! UI submit handlers guarding the store calls. -/

/-- Model of the `rating_form` submit handler: a submission with
`internal_from > internal_to` is rejected (an error is shown) and the store
is not invoked; otherwise `add_rating` runs. -/
def rating_form_submit (db : DB) (fid : Nat)
    (leniency correction teaching internal_from internal_to : Int)
    (comment : String) (user_email reg_no : Option String) (now : Nat) : DB :=
  if internal_from > internal_to then db
  else add_rating db fid leniency correction teaching internal_from internal_to
    comment user_email reg_no now

/-- Model of the `add_faculty_form` submit handler: `if not name.strip()` the
submission is rejected and the store is not invoked; otherwise the stripped
name and department are inserted. -/
def add_faculty_form_submit (db : DB) (name dept : String) : DB :=
  if name.trim = "" then db
  else add_faculty db name.trim dept.trim

/-! Schema-ensure (`init_db`).  The schema state of the `rating` table is its
ordered column list (`none` when the table does not exist yet; the `faculty`
table has a fixed schema and needs no migration). -/

/-- Column set of the current revision's CREATE TABLE rating. -/
def full_rating_cols : List String :=
  ["id", "faculty_id", "leniency", "internal_marks", "correction", "teaching",
   "internal_from", "internal_to", "comment", "created_at", "user_email", "reg_no"]

/-- The columns `init_db` patches in for databases created by older
revisions. -/
def migration_cols : List String :=
  ["internal_marks", "teaching", "internal_from", "internal_to", "user_email", "reg_no"]

/-- ALTER TABLE rating ADD COLUMN: fails (duplicate-column error) when the
column already exists. -/
def alterAddColumn (cols : List String) (name : String) : Except Unit (List String) :=
  if name ∈ cols then Except.error () else Except.ok (cols ++ [name])

/-- Model of `add_column_if_missing`: membership test via
`PRAGMA table_info`, and any ALTER failure swallowed by `try/except: pass`. -/
def add_column_if_missing (cols : List String) (name : String) : List String :=
  if name ∈ cols then cols
  else
    match alterAddColumn cols name with
    | Except.ok cols2 => cols2
    | Except.error _ => cols

/-- Model of `init_db` on the rating table: CREATE TABLE IF NOT EXISTS with
the full column set, then patch each possibly missing column.  Errors from
redundant column adds are swallowed, so the operation is total. -/
def init_db (schema : Option (List String)) : List String :=
  migration_cols.foldl add_column_if_missing (schema.getD full_rating_cols)

/-! Concrete states used to instantiate the theorems, built through the
store operations themselves. -/

/-- One faculty, two ratings: the worked example of the specification. -/
def exampleDB2 : DB :=
  add_rating
    (add_rating (add_faculty emptyDB "Dr. A" "CSE") 1 8 6 9 70 80 "" none none 0)
    1 10 8 7 60 70 "" none none 60

/-- One faculty with two ratings submitted within the same calendar minute
(seconds 60 and 90, both minute 1). -/
def tieDB : DB :=
  add_rating
    (add_rating (add_faculty emptyDB "Dr. B" "") 1 5 5 5 50 60 "" none none 60)
    1 6 6 6 70 80 "" none none 90

/-- The first rating row of `tieDB`. -/
def tieR1 : Rating :=
  { id := 1, faculty_id := 1, leniency := 5, internal_marks := 55, correction := 5
    teaching := 5, internal_from := 50, internal_to := 60, comment := none
    created_at := 1, user_email := none, reg_no := none }

/-- The second rating row of `tieDB`. -/
def tieR2 : Rating :=
  { id := 2, faculty_id := 1, leniency := 6, internal_marks := 75, correction := 6
    teaching := 6, internal_from := 70, internal_to := 80, comment := none
    created_at := 1, user_email := none, reg_no := none }

/-- Two faculties, added in non-alphabetical order, no ratings. -/
def twoFacultyDB : DB :=
  add_faculty (add_faculty emptyDB "Dr. B" "ECE") "Dr. A" "CSE"

end FacultyReview

namespace FacultyReview

/-! Helper lemmas. -/

/-- Rounding of an integer value is the identity. -/
theorem rne_intCast (k : ℤ) : rne (k : ℚ) = k := by
  have hnum : ((k : ℚ)).num = k := Rat.intCast_num k
  have hden : ((k : ℚ)).den = 1 := Rat.intCast_den k
  unfold rne
  rw [hnum, hden]
  simp only [Nat.cast_one, Int.ediv_one]
  rw [sub_self]
  norm_num

/-- Rounding an integer to one decimal place is the identity. -/
theorem round1_intCast (k : ℤ) : round1 (k : ℚ) = k := by
  unfold round1
  have h : ((k : ℚ) * 10) = ((k * 10 : ℤ) : ℚ) := by push_cast; ring
  rw [h, rne_intCast]
  push_cast
  ring

/-- Rounding zero gives zero. -/
theorem round1_zero : round1 0 = 0 := by
  simpa using round1_intCast 0

/-- SQL AVG of no rows is NULL. -/
theorem avgOpt_nil : avgOpt [] = none := rfl

/-- SQL AVG of at least one row is the exact arithmetic mean. -/
theorem avgOpt_of_ne_nil {xs : List ℚ} (h : xs ≠ []) :
    avgOpt xs = some (xs.sum / (xs.length : ℚ)) := by
  simp [avgOpt, h]

/-! C1.  `get_all_faculty_with_avg` returns one row per faculty row, zeroed
averages and count 0 for a faculty with no ratings, ordered ascending by
name. -/

/-- C1: the listing has exactly one row per faculty row (same ids, up to the
reordering), is sorted ascending by name, and a faculty with no ratings
reports every average as `0.0` (not NULL) and a rating count of `0`. -/
theorem get_all_faculty_with_avg_complete_sorted_zeroed (db : DB) :
    (get_all_faculty_with_avg db).length = db.faculty.length
    ∧ ((get_all_faculty_with_avg db).map AvgRow.id).Perm (db.faculty.map Faculty.id)
    ∧ (get_all_faculty_with_avg db).Pairwise (fun a b => a.name ≤ b.name)
    ∧ ∀ row ∈ get_all_faculty_with_avg db, ratingsFor db row.id = [] →
        row.avg_leniency = 0 ∧ row.avg_internal = 0 ∧ row.avg_correction = 0
        ∧ row.avg_teaching = 0 ∧ row.rating_count = 0 := by
  refine ⟨?_, ?_, ?_, ?_⟩
  · rw [get_all_faculty_with_avg, List.length_map,
      (List.perm_insertionSort byNameLE db.faculty).length_eq]
  · rw [get_all_faculty_with_avg, List.map_map]
    have h : (AvgRow.id ∘ facultyAvgRow db) = Faculty.id := by
      funext f; rfl
    rw [h]
    exact (List.perm_insertionSort byNameLE db.faculty).map Faculty.id
  · rw [get_all_faculty_with_avg, List.pairwise_map]
    exact List.sorted_insertionSort byNameLE db.faculty
  · intro row hrow hempty
    rw [get_all_faculty_with_avg, List.mem_map] at hrow
    obtain ⟨f, _, rfl⟩ := hrow
    have hid : (facultyAvgRow db f).id = f.id := rfl
    rw [hid] at hempty
    simp only [facultyAvgRow, hempty, List.map_nil, List.length_nil, avgOpt_nil,
      Option.getD_none, round1_zero]
    exact ⟨trivial, trivial, trivial, trivial, trivial⟩

/-- C1 witness: a database with two faculties added in non-alphabetical
order and no ratings. -/
theorem get_all_faculty_with_avg_complete_sorted_zeroed_instance :
    (get_all_faculty_with_avg twoFacultyDB).length = 2
    ∧ (get_all_faculty_with_avg twoFacultyDB).Pairwise (fun a b => a.name ≤ b.name)
    ∧ ∀ row ∈ get_all_faculty_with_avg twoFacultyDB,
        row.avg_leniency = 0 ∧ row.avg_internal = 0 ∧ row.avg_correction = 0
        ∧ row.avg_teaching = 0 ∧ row.rating_count = 0 := by
  obtain ⟨hlen, _, hsort, hzero⟩ :=
    get_all_faculty_with_avg_complete_sorted_zeroed twoFacultyDB
  refine ⟨hlen.trans (by decide), hsort, ?_⟩
  intro row hrow
  refine hzero row hrow ?_
  have hids : ∀ r ∈ twoFacultyDB.rating, False := by
    intro r hr
    simp [twoFacultyDB, add_faculty, emptyDB] at hr
  rw [List.eq_nil_iff_forall_not_mem]
  intro r hr
  rw [ratingsFor, List.mem_filter] at hr
  exact hids r hr.1

/-! C2.  The reported internal-marks average is the rounded mean of the
per-rating midpoints, and the worked example from the specification. -/

/-- The aggregate row of `exampleDB2`'s single faculty. -/
def exampleRow : AvgRow :=
  { id := 1, name := "Dr. A", department := some "CSE"
    avg_leniency := 9, avg_internal := 70, avg_correction := 7
    avg_teaching := 8, rating_count := 2 }

/-- C2: for every faculty with at least one rating, the reported
`avg_internal` is the arithmetic mean of the per-rating midpoints
`(internal_from + internal_to) / 2`, rounded to one decimal place; on the
specification's worked example (ratings 8/6/9/70..80 and 10/8/7/60..70) the
reported average leniency is 9.0 and the reported internal-marks average is
70.0. -/
theorem avg_internal_is_rounded_mean_of_midpoints :
    (∀ (db : DB) (row : AvgRow), row ∈ get_all_faculty_with_avg db →
      ratingsFor db row.id ≠ [] →
      row.avg_internal =
        round1 (((ratingsFor db row.id).map midpoint).sum
          / (((ratingsFor db row.id).length : ℚ))))
    ∧ (get_all_faculty_with_avg exampleDB2).map
        (fun r => (r.avg_leniency, r.avg_internal)) = [(9, 70)] := by
  constructor
  · intro db row hrow hne
    rw [get_all_faculty_with_avg, List.mem_map] at hrow
    obtain ⟨f, _, rfl⟩ := hrow
    have hid : (facultyAvgRow db f).id = f.id := rfl
    rw [hid] at hne ⊢
    have hmapne : (ratingsFor db f.id).map midpoint ≠ [] := by
      simpa using hne
    show round1 ((avgOpt ((ratingsFor db f.id).map midpoint)).getD 0) = _
    rw [avgOpt_of_ne_nil hmapne, Option.getD_some, List.length_map]
  · with_unfolding_all decide

/-- C2 witness: the general statement applied to the worked example's
database and its single aggregate row. -/
theorem avg_internal_is_rounded_mean_of_midpoints_instance :
    exampleRow ∈ get_all_faculty_with_avg exampleDB2
    ∧ exampleRow.avg_internal =
        round1 (((ratingsFor exampleDB2 exampleRow.id).map midpoint).sum
          / (((ratingsFor exampleDB2 exampleRow.id).length : ℚ))) := by
  refine ⟨by with_unfolding_all decide, ?_⟩
  exact avg_internal_is_rounded_mean_of_midpoints.1 exampleDB2 exampleRow
    (by with_unfolding_all decide) (by with_unfolding_all decide)

/-! C3.  Characterization of `valid_college_email`. -/

/-- Success of the digit matcher splits off exactly `n` ASCII digits. -/
theorem matchDigits_eq_some {n : Nat} {cs rest : List Char} :
    matchDigits n cs = some rest ↔
      ∃ ds, cs = ds ++ rest ∧ ds.length = n ∧ ∀ c ∈ ds, c.isDigit = true := by
  induction n generalizing cs with
  | zero =>
    constructor
    · intro h
      have hcs : cs = rest := by simpa [matchDigits] using h
      exact ⟨[], by simp [hcs], rfl, by simp⟩
    · rintro ⟨ds, hcs, hlen, _⟩
      have hds : ds = [] := List.length_eq_zero.mp hlen
      subst hds
      simpa [matchDigits] using hcs
  | succ n ih =>
    cases cs with
    | nil =>
      constructor
      · intro h
        simp [matchDigits] at h
      · rintro ⟨ds, hcs, hlen, _⟩
        have := congrArg List.length hcs
        simp [hlen] at this
        exact absurd this (by omega)
    | cons c cs =>
      by_cases hd : c.isDigit
      · constructor
        · intro h
          simp only [matchDigits, if_pos hd] at h
          obtain ⟨ds, hcs, hlen, hdig⟩ := ih.mp h
          refine ⟨c :: ds, by simp [hcs], by simp [hlen], ?_⟩
          intro x hx
          rcases List.mem_cons.mp hx with hx | hx
          · rw [hx]; exact hd
          · exact hdig x hx
        · rintro ⟨ds, hcs, hlen, hdig⟩
          cases ds with
          | nil => simp at hlen
          | cons d ds' =>
            obtain ⟨hcd, hcs'⟩ : c = d ∧ cs = ds' ++ rest := by simpa using hcs
            simp only [matchDigits, if_pos hd]
            refine ih.mpr ⟨ds', hcs', by simpa using hlen, ?_⟩
            intro x hx
            exact hdig x (List.mem_cons_of_mem d hx)
      · constructor
        · intro h
          simp [matchDigits, if_neg hd] at h
        · rintro ⟨ds, hcs, hlen, hdig⟩
          cases ds with
          | nil => simp at hlen
          | cons d ds' =>
            obtain ⟨hcd, _⟩ : c = d ∧ cs = ds' ++ rest := by simpa using hcs
            exact absurd (hcd ▸ hdig d (List.mem_cons_self d ds')) hd

/-- Success of the literal matcher splits off exactly the literal. -/
theorem matchLit_eq_some {ls cs rest : List Char} :
    matchLit ls cs = some rest ↔ cs = ls ++ rest := by
  induction ls generalizing cs with
  | nil => simp [matchLit]
  | cons l ls ih =>
    cases cs with
    | nil =>
      constructor
      · intro h; simp [matchLit] at h
      · intro h; simp at h
    | cons c cs =>
      by_cases h : c = l
      · subst h
        simp [matchLit, ih]
      · simp [matchLit, if_neg h, h]

/-- The Python `$` anchor accepts the end of input or one final newline. -/
theorem matchEnd_eq_true {cs : List Char} :
    matchEnd cs = true ↔ cs = [] ∨ cs = ['\n'] := by
  match cs with
  | [] => simp [matchEnd]
  | [c] => simp [matchEnd]
  | c1 :: c2 :: cs => simp [matchEnd]

/-- C3 counterexample: by Python `re` semantics the `$` anchor also matches
just before a trailing newline, so `valid_college_email` accepts a string
that is not exactly nine digits followed by the suffix. -/
theorem valid_college_email_accepts_trailing_newline :
    valid_college_email "192524447.simats@saveetha.com\n" = true
    ∧ ¬ exactNineDigitForm "192524447.simats@saveetha.com\n" := by
  constructor
  · decide
  · rintro ⟨ds, hlen, _, heq⟩
    have h30 : ("192524447.simats@saveetha.com\n".data).length = 30 := by decide
    rw [heq] at h30
    simp [hlen, emailSuffix] at h30

/-- C3 (amended): `valid_college_email` accepts a string iff it is exactly
nine decimal digits followed by the literal `.simats@saveetha.com`,
optionally followed by one trailing newline; in particular wrong suffixes,
wrong digit counts and the empty string are rejected. -/
theorem valid_college_email_characterization (s : String) :
    valid_college_email s = true ↔ exactNineDigitForm s ∨ nineDigitNewlineForm s := by
  unfold valid_college_email
  constructor
  · intro h
    cases h1 : matchDigits 9 s.data with
    | none => rw [h1] at h; simp at h
    | some rest =>
      rw [h1] at h
      have h' : (match matchLit emailSuffix rest with
          | none => false
          | some rest2 => matchEnd rest2) = true := h
      cases h2 : matchLit emailSuffix rest with
      | none => rw [h2] at h'; simp at h'
      | some rest2 =>
        rw [h2] at h'
        have hend : matchEnd rest2 = true := h'
        obtain ⟨ds, hcs, hlen, hdig⟩ := matchDigits_eq_some.mp h1
        have hrest : rest = emailSuffix ++ rest2 := matchLit_eq_some.mp h2
        rcases matchEnd_eq_true.mp hend with h3 | h3
        · left
          refine ⟨ds, hlen, hdig, ?_⟩
          rw [hcs, hrest, h3, List.append_nil]
        · right
          refine ⟨ds, hlen, hdig, ?_⟩
          rw [hcs, hrest, h3, ← List.append_assoc]
  · rintro (⟨ds, hlen, hdig, heq⟩ | ⟨ds, hlen, hdig, heq⟩)
    · have h1 : matchDigits 9 s.data = some emailSuffix :=
        matchDigits_eq_some.mpr ⟨ds, heq, hlen, hdig⟩
      rw [h1]
      have h2 : matchLit emailSuffix emailSuffix = some [] :=
        matchLit_eq_some.mpr (by simp)
      have hgoal : (match matchLit emailSuffix emailSuffix with
          | none => false
          | some rest2 => matchEnd rest2) = true := by
        rw [h2]; rfl
      exact hgoal
    · have h1 : matchDigits 9 s.data = some (emailSuffix ++ ['\n']) :=
        matchDigits_eq_some.mpr
          ⟨ds, heq.trans (List.append_assoc ds emailSuffix ['\n']), hlen, hdig⟩
      rw [h1]
      have h2 : matchLit emailSuffix (emailSuffix ++ ['\n']) = some ['\n'] :=
        matchLit_eq_some.mpr rfl
      have hgoal : (match matchLit emailSuffix (emailSuffix ++ ['\n']) with
          | none => false
          | some rest2 => matchEnd rest2) = true := by
        rw [h2]; rfl
      exact hgoal

/-- C3 witness: the documented example address is accepted and has the
nine-digit form. -/
theorem valid_college_email_characterization_instance :
    valid_college_email "192524447.simats@saveetha.com" = true
    ∧ (exactNineDigitForm "192524447.simats@saveetha.com"
        ∨ nineDigitNewlineForm "192524447.simats@saveetha.com") := by
  refine ⟨by decide, ?_⟩
  exact (valid_college_email_characterization "192524447.simats@saveetha.com").mp (by decide)

/-! C4.  Ordering of `get_ratings_for_faculty`. -/

/-- C4 counterexample: two ratings submitted in the same calendar minute have
equal `created_at` values, so the listing is not in STRICTLY descending
creation-time order. -/
theorem get_ratings_tie_not_strictly_descending :
    (get_ratings_for_faculty tieDB 1).map RatingView.created_at = [1, 1]
    ∧ ¬ ((get_ratings_for_faculty tieDB 1).map RatingView.created_at).Pairwise
        (fun a b => b < a) := by
  with_unfolding_all decide

/-- C4 (amended): for every database state (hence regardless of insertion
order) the listing for a faculty is a permutation of exactly that faculty's
ratings, non-strictly descending by `created_at` (ties in `created_at` are
possible and their relative order is not specified by the query), and empty
when the faculty has no ratings. -/
theorem get_ratings_for_faculty_sorted_desc :
    ∀ (db : DB) (fid : Nat),
      (get_ratings_for_faculty db fid).Perm ((ratingsFor db fid).map ratingView)
      ∧ (get_ratings_for_faculty db fid).Pairwise
          (fun a b => b.created_at ≤ a.created_at)
      ∧ (ratingsFor db fid = [] → get_ratings_for_faculty db fid = []) := by
  intro db fid
  refine ⟨?_, ?_, ?_⟩
  · exact (List.perm_insertionSort createdDesc (ratingsFor db fid)).map ratingView
  · rw [get_ratings_for_faculty, List.pairwise_map]
    exact List.sorted_insertionSort createdDesc (ratingsFor db fid)
  · intro h
    rw [get_ratings_for_faculty, ratingsQuery, h]
    rfl

/-- C4 witness: the amended statement applied to the tied database, and the
empty-listing case for a faculty id with no ratings. -/
theorem get_ratings_for_faculty_sorted_desc_instance :
    (get_ratings_for_faculty tieDB 1).Perm ((ratingsFor tieDB 1).map ratingView)
    ∧ (get_ratings_for_faculty tieDB 1).Pairwise
        (fun a b => b.created_at ≤ a.created_at)
    ∧ get_ratings_for_faculty tieDB 2 = [] := by
  obtain ⟨hperm, hsort, _⟩ := get_ratings_for_faculty_sorted_desc tieDB 1
  obtain ⟨_, _, hnil⟩ := get_ratings_for_faculty_sorted_desc tieDB 2
  exact ⟨hperm, hsort, hnil (by with_unfolding_all decide)⟩

/-! C5.  The inverted internal-marks range is rejected by the caller, not by
the store. -/

/-- C5: a submission with `internal_from > internal_to` leaves the database
unchanged (the store is never invoked), so a subsequent listing is unchanged;
the store operation `add_rating` itself inserts a row unconditionally — it
performs no range validation. -/
theorem rating_form_submit_rejects_inverted_range :
    (∀ (db : DB) (fid : Nat) (len corr teach ifrom ito : Int)
        (cm : String) (ue rn : Option String) (now : Nat), ito < ifrom →
        rating_form_submit db fid len corr teach ifrom ito cm ue rn now = db
        ∧ get_ratings_for_faculty
            (rating_form_submit db fid len corr teach ifrom ito cm ue rn now) fid
          = get_ratings_for_faculty db fid)
    ∧ (∀ (db : DB) (fid : Nat) (len corr teach ifrom ito : Int)
        (cm : String) (ue rn : Option String) (now : Nat),
        (add_rating db fid len corr teach ifrom ito cm ue rn now).rating.length
          = db.rating.length + 1) := by
  constructor
  · intro db fid len corr teach ifrom ito cm ue rn now hlt
    have heq : rating_form_submit db fid len corr teach ifrom ito cm ue rn now = db := by
      rw [rating_form_submit, if_pos hlt]
    exact ⟨heq, by rw [heq]⟩
  · intro db fid len corr teach ifrom ito cm ue rn now
    simp [add_rating]

/-- C5 witness: the rejected submission `internal_from = 90, internal_to = 80`
on the worked-example database, and an unconditional insert by the store. -/
theorem rating_form_submit_rejects_inverted_range_instance :
    rating_form_submit exampleDB2 1 5 5 5 90 80 "" none none 120 = exampleDB2
    ∧ get_ratings_for_faculty
        (rating_form_submit exampleDB2 1 5 5 5 90 80 "" none none 120) 1
      = get_ratings_for_faculty exampleDB2 1
    ∧ (add_rating exampleDB2 1 5 5 5 90 80 "" none none 120).rating.length
      = exampleDB2.rating.length + 1 := by
  obtain ⟨h1, h2⟩ :=
    rating_form_submit_rejects_inverted_range.1 exampleDB2 1 5 5 5 90 80 "" none none 120
      (by decide)
  exact ⟨h1, h2,
    rating_form_submit_rejects_inverted_range.2 exampleDB2 1 5 5 5 90 80 "" none none 120⟩

/-! C6.  Idempotence of the schema-ensure operation. -/

/-- Adding a column leaves it present. -/
theorem mem_add_column_if_missing_self (cols : List String) (name : String) :
    name ∈ add_column_if_missing cols name := by
  by_cases h : name ∈ cols <;>
    simp [add_column_if_missing, alterAddColumn, h]

/-- Adding a column preserves the existing columns. -/
theorem mem_add_column_if_missing_of_mem {cols : List String} {x : String}
    (h : x ∈ cols) (name : String) : x ∈ add_column_if_missing cols name := by
  by_cases hn : name ∈ cols <;>
    simp [add_column_if_missing, alterAddColumn, hn, h]

/-- A column-add attempted against a schema already holding the column is a
no-op, not a failure. -/
theorem add_column_if_missing_of_mem {cols : List String} {name : String}
    (h : name ∈ cols) : add_column_if_missing cols name = cols := by
  simp [add_column_if_missing, h]

/-- Column-adds never create duplicate columns. -/
theorem nodup_add_column_if_missing {cols : List String} (h : cols.Nodup)
    (name : String) : (add_column_if_missing cols name).Nodup := by
  by_cases hn : name ∈ cols
  · rw [add_column_if_missing_of_mem hn]; exact h
  · simp [add_column_if_missing, alterAddColumn, hn]
    simpa [List.nodup_append, hn] using h

/-- Columns present before a migration pass are present after it. -/
theorem mem_foldl_add_column_of_mem {x : String} :
    ∀ (names : List String) (cols : List String), x ∈ cols →
      x ∈ List.foldl add_column_if_missing cols names := by
  intro names
  induction names with
  | nil => intro cols h; simpa using h
  | cons n ns ih =>
    intro cols h
    exact ih (add_column_if_missing cols n) (mem_add_column_if_missing_of_mem h n)

/-- Every column touched by a migration pass is present after it. -/
theorem mem_foldl_add_column_of_mem_names {x : String} :
    ∀ (names : List String) (cols : List String), x ∈ names →
      x ∈ List.foldl add_column_if_missing cols names := by
  intro names
  induction names with
  | nil => intro cols h; simp at h
  | cons n ns ih =>
    intro cols h
    rcases List.mem_cons.mp h with h | h
    · rw [h]
      exact mem_foldl_add_column_of_mem ns _ (mem_add_column_if_missing_self cols n)
    · exact ih _ h

/-- A migration pass over columns that are all present is the identity. -/
theorem foldl_add_column_of_all_mem :
    ∀ (names : List String) (cols : List String), (∀ n ∈ names, n ∈ cols) →
      List.foldl add_column_if_missing cols names = cols := by
  intro names
  induction names with
  | nil => intro cols _; rfl
  | cons n ns ih =>
    intro cols h
    have hn : n ∈ cols := h n (List.mem_cons_self n ns)
    rw [List.foldl_cons, add_column_if_missing_of_mem hn]
    exact ih cols fun m hm => h m (List.mem_cons_of_mem n hm)

/-- A migration pass preserves the absence of duplicate columns. -/
theorem nodup_foldl_add_column :
    ∀ (names : List String) (cols : List String), cols.Nodup →
      (List.foldl add_column_if_missing cols names).Nodup := by
  intro names
  induction names with
  | nil => intro cols h; simpa using h
  | cons n ns ih =>
    intro cols h
    exact ih _ (nodup_add_column_if_missing h n)

/-- C6: `init_db` is idempotent — a second invocation from the state the
first one produced changes nothing; from any starting schema without
duplicate columns (including a fresh database) the resulting schema has no
duplicate columns; and a column-add against an already-consistent schema is
a no-op rather than an error (the operation is total: ALTER failures are
swallowed). -/
theorem init_db_idempotent :
    (∀ schema : Option (List String), init_db (some (init_db schema)) = init_db schema)
    ∧ (∀ cols : List String, cols.Nodup → (init_db (some cols)).Nodup)
    ∧ (init_db none).Nodup
    ∧ (∀ (cols : List String) (name : String), name ∈ cols →
        add_column_if_missing cols name = cols) := by
  refine ⟨?_, ?_, ?_, ?_⟩
  · intro schema
    show List.foldl add_column_if_missing (init_db schema) migration_cols = init_db schema
    refine foldl_add_column_of_all_mem migration_cols (init_db schema) ?_
    intro n hn
    exact mem_foldl_add_column_of_mem_names migration_cols _ hn
  · intro cols h
    exact nodup_foldl_add_column migration_cols cols h
  · refine nodup_foldl_add_column migration_cols full_rating_cols ?_
    decide
  · intro cols name h
    exact add_column_if_missing_of_mem h

/-- C6 witness: a legacy single-column schema, migrated then migrated again. -/
theorem init_db_idempotent_instance :
    init_db (some (init_db (some ["id", "faculty_id", "leniency", "correction",
      "comment", "created_at"])))
      = init_db (some ["id", "faculty_id", "leniency", "correction",
      "comment", "created_at"])
    ∧ (init_db (some ["id", "faculty_id", "leniency", "correction",
      "comment", "created_at"])).Nodup
    ∧ add_column_if_missing ["id", "reg_no"] "reg_no" = ["id", "reg_no"] := by
  refine ⟨init_db_idempotent.1 _, init_db_idempotent.2.1 _ (by decide), ?_⟩
  exact init_db_idempotent.2.2.2 _ "reg_no" (by decide)

/-! C7.  `get_avg_for_faculty` on a faculty with no ratings. -/

/-- C7: when the faculty has no ratings — in particular, under referential
integrity, when no faculty with that id exists — `get_avg_for_faculty`
returns all averages equal to zero and a rating count of `0`; the operation
is total, so no error is signalled and no NULL average is exposed. -/
theorem get_avg_for_faculty_zero_cases :
    ∀ (db : DB) (fid : Nat),
      (ratingsFor db fid = [] → get_avg_for_faculty db fid = zeroAvgStats)
      ∧ (refIntegrity db → (∀ f ∈ db.faculty, f.id ≠ fid) →
          get_avg_for_faculty db fid = zeroAvgStats) := by
  intro db fid
  have hbase : ratingsFor db fid = [] → get_avg_for_faculty db fid = zeroAvgStats := by
    intro h
    rw [get_avg_for_faculty]
    simp only [h, List.map_nil, List.length_nil, avgOpt_nil, Option.getD_none, round1_zero]
    rfl
  refine ⟨hbase, ?_⟩
  intro hint hfac
  refine hbase ?_
  rw [List.eq_nil_iff_forall_not_mem]
  intro r hr
  rw [ratingsFor, List.mem_filter] at hr
  obtain ⟨f, hf, hfid⟩ := hint r hr.1
  have hid : r.faculty_id = fid := of_decide_eq_true hr.2
  exact hfac f hf (by rw [hfid, hid])

/-- C7 witness: a nonexistent faculty id on the worked-example database
(which satisfies referential integrity). -/
theorem get_avg_for_faculty_zero_cases_instance :
    get_avg_for_faculty exampleDB2 7 = zeroAvgStats
    ∧ get_avg_for_faculty emptyDB 1 = zeroAvgStats := by
  constructor
  · have hall : ∀ r ∈ exampleDB2.rating, r.faculty_id = 1 := by
      with_unfolding_all decide
    have hfac : ∀ f ∈ exampleDB2.faculty, f.id ≠ 7 := by
      with_unfolding_all decide
    refine (get_avg_for_faculty_zero_cases exampleDB2 7).2 ?_ hfac
    intro r hr
    exact ⟨⟨1, "Dr. A", some "CSE"⟩, by with_unfolding_all decide, (hall r hr).symm⟩
  · exact (get_avg_for_faculty_zero_cases emptyDB 1).1 (by decide)

/-! C8.  Blank faculty names are rejected by the caller, not by the store. -/

/-- C8: a faculty submission whose name strips to the empty string leaves
the database unchanged (the store is never invoked); the store operation
`add_faculty` itself inserts a row unconditionally — it performs no name
validation. -/
theorem add_faculty_form_submit_rejects_blank :
    (∀ (db : DB) (name dept : String), name.trim = "" →
        add_faculty_form_submit db name dept = db)
    ∧ (∀ (db : DB) (name dept : String),
        (add_faculty db name dept).faculty.length = db.faculty.length + 1) := by
  constructor
  · intro db name dept h
    rw [add_faculty_form_submit, if_pos h]
  · intro db name dept
    simp [add_faculty]

/-- C8 witness: a whitespace-only name is rejected with the state unchanged,
while the store inserts even an empty name when called directly. -/
theorem add_faculty_form_submit_rejects_blank_instance :
    add_faculty_form_submit emptyDB "   " "CSE" = emptyDB
    ∧ (add_faculty emptyDB "" "CSE").faculty.length = 1 := by
  exact ⟨add_faculty_form_submit_rejects_blank.1 emptyDB "   " "CSE"
      (by with_unfolding_all decide),
    add_faculty_form_submit_rejects_blank.2 emptyDB "" "CSE"⟩

/-! C9.  `add_rating` populates the legacy `internal_marks` column. -/

/-- C9: every row inserted by `add_rating` carries, besides the submitted
range `internal_from`/`internal_to`, the legacy `internal_marks` value
`int(round((internal_from + internal_to) / 2.0))` — the half-to-even rounded
midpoint of the range; when the two endpoints have an even sum the midpoint
is exact. -/
theorem add_rating_populates_internal_marks :
    ∀ (db : DB) (fid : Nat) (len corr teach ifrom ito : Int)
      (cm : String) (ue rn : Option String) (now : Nat),
      ∃ r : Rating,
        (add_rating db fid len corr teach ifrom ito cm ue rn now).rating
          = db.rating ++ [r]
        ∧ r.internal_marks = rne (((ifrom + ito : ℤ) : ℚ) / 2)
        ∧ r.internal_from = ifrom ∧ r.internal_to = ito
        ∧ ∀ k : ℤ, ifrom + ito = 2 * k → r.internal_marks = k := by
  intro db fid len corr teach ifrom ito cm ue rn now
  refine ⟨_, rfl, rfl, rfl, rfl, ?_⟩
  intro k hk
  show rne (((ifrom + ito : ℤ) : ℚ) / 2) = k
  rw [hk]
  have h2 : (((2 * k : ℤ) : ℚ)) / 2 = (k : ℚ) := by push_cast; ring
  rw [h2, rne_intCast]

/-- C9 witness: the range 70..80 yields `internal_marks = 75`. -/
theorem add_rating_populates_internal_marks_instance :
    ∃ r : Rating,
      (add_rating emptyDB 1 8 6 9 70 80 "" none none 0).rating = emptyDB.rating ++ [r]
      ∧ r.internal_marks = 75 ∧ r.internal_from = 70 ∧ r.internal_to = 80 := by
  obtain ⟨r, hins, _, hfrom, hto, hexact⟩ :=
    add_rating_populates_internal_marks emptyDB 1 8 6 9 70 80 "" none none 0
  exact ⟨r, hins, hexact 75 (by decide), hfrom, hto⟩

/-! C10.  Minute-precision timestamps and tie order. -/

/-- C10: `created_at` is recorded at minute precision, so the rows produced
by two `add_rating` calls within the same calendar minute carry identical
`created_at` values; consequently, for two such tied ratings, both relative
orders satisfy everything the `ORDER BY datetime(created_at) DESC` query
guarantees about its output — the order of tied rows is not determined. -/
theorem add_rating_minute_precision_tie_order :
    (∀ (db1 db2 : DB) (f1 f2 : Nat) (l1 c1 t1 if1 it1 l2 c2 t2 if2 it2 : Int)
        (cm1 cm2 : String) (ue1 rn1 ue2 rn2 : Option String) (s1 s2 : Nat),
        ∃ r1 r2 : Rating,
          (add_rating db1 f1 l1 c1 t1 if1 it1 cm1 ue1 rn1 s1).rating
            = db1.rating ++ [r1]
          ∧ (add_rating db2 f2 l2 c2 t2 if2 it2 cm2 ue2 rn2 s2).rating
            = db2.rating ++ [r2]
          ∧ r1.created_at = s1 / 60 ∧ r2.created_at = s2 / 60
          ∧ (s1 / 60 = s2 / 60 → r1.created_at = r2.created_at))
    ∧ (∀ (db : DB) (fid : Nat) (r1 r2 : Rating),
        ratingsFor db fid = [r1, r2] → r1.created_at = r2.created_at →
          ratingsResultSpec db fid [r1, r2] ∧ ratingsResultSpec db fid [r2, r1]) := by
  constructor
  · intro db1 db2 f1 f2 l1 c1 t1 if1 it1 l2 c2 t2 if2 it2 cm1 cm2 ue1 rn1 ue2 rn2 s1 s2
    refine ⟨_, _, rfl, rfl, rfl, rfl, ?_⟩
    intro h
    exact h
  · intro db fid r1 r2 hrs heq
    constructor
    · refine ⟨by rw [hrs], ?_⟩
      exact List.pairwise_pair.mpr (le_of_eq heq.symm)
    · refine ⟨?_, ?_⟩
      · rw [hrs]
        exact List.Perm.swap r1 r2 []
      · exact List.pairwise_pair.mpr (le_of_eq heq)

/-- C10 witness: two insertions at seconds 60 and 90 (same minute), and the
tied pair of `tieDB`, for which both output orders meet the query's
guarantee. -/
theorem add_rating_minute_precision_tie_order_instance :
    (∃ r1 r2 : Rating,
        (add_rating emptyDB 1 5 5 5 50 60 "" none none 60).rating
          = emptyDB.rating ++ [r1]
        ∧ (add_rating emptyDB 1 6 6 6 70 80 "" none none 90).rating
          = emptyDB.rating ++ [r2]
        ∧ r1.created_at = 60 / 60 ∧ r2.created_at = 90 / 60
        ∧ r1.created_at = r2.created_at)
    ∧ ratingsResultSpec tieDB 1 [tieR1, tieR2]
    ∧ ratingsResultSpec tieDB 1 [tieR2, tieR1] := by
  obtain ⟨hgen, htie⟩ := add_rating_minute_precision_tie_order
  refine ⟨?_, ?_, ?_⟩
  · obtain ⟨r1, r2, e1, e2, hc1, hc2, himp⟩ :=
      hgen emptyDB emptyDB 1 1 5 5 5 50 60 6 6 6 70 80 "" "" none none none none 60 90
    exact ⟨r1, r2, e1, e2, hc1, hc2, himp (by decide)⟩
  · exact (htie tieDB 1 tieR1 tieR2 (by with_unfolding_all decide) (by decide)).1
  · exact (htie tieDB 1 tieR1 tieR2 (by with_unfolding_all decide) (by decide)).2

end FacultyReview
